import Mathlib

/-!
Shallow embedding of the response-shaping pipeline of the VocalCoach backend
(`backend/app/api/routes/chat.py`, `dictionary.py`, `grammar.py` and the
configuration defaults of `backend/app/core/config.py`), together with
theorems settling the specification claims about it.

Strings are modelled as Lean `String`s; the character-level helpers work on
`List Char` (`String.data`).  Python's `str.strip`/`str.split` whitespace is
modelled by the ASCII whitespace characters, which covers every character the
repository's forbidden set and validator interact with.
-/

namespace VocalCoach

/-- Configuration values drawn from `Settings` in `backend/app/core/config.py`:
`llm_response_word_min`, `llm_response_word_max`, `llm_response_retry_attempts`
and `llm_system_prompt`. -/
structure Config where
  wordMin : Nat
  wordMax : Nat
  retryAttempts : Nat
  systemPrompt : Option String
  deriving Repr, DecidableEq

/-- ASCII whitespace, modelling the characters Python's `str.strip()` and
`str.split()` treat as separators. -/
def pyIsSpace (c : Char) : Bool :=
  c = ' ' || c = '\t' || c = '\n' || c = '\r' || c = '\x0b' || c = '\x0c'

/-- `_FORBIDDEN_CHARS` from `chat.py` (the 22-character frozenset). -/
def forbiddenChars : List Char :=
  ['#', '*', '/', '%', '-', '\"', '\x27', '\x60',
   '•', '●', '▪', '‧', '·', '“', '”', '‘', '’', '–', '—',
   '\n', '\r', '\t']

/-- Membership test in `_FORBIDDEN_CHARS`. -/
def isForbidden (c : Char) : Bool := forbiddenChars.contains c

/-- Drop trailing Python whitespace (the right half of `str.strip()`). -/
def dropTrailingWs (l : List Char) : List Char :=
  (l.reverse.dropWhile pyIsSpace).reverse

/-- Python `str.strip()` on the character list. -/
def stripPy (l : List Char) : List Char :=
  dropTrailingWs (l.dropWhile pyIsSpace)

/-- Accumulator-based model of Python `str.split()` (no arguments): split on
runs of whitespace, returning the non-empty chunks in order.  `acc` holds the
characters of the chunk currently being read, in reverse. -/
def splitWsAux : List Char → List Char → List (List Char)
  | acc, [] => if acc.isEmpty then [] else [acc.reverse]
  | acc, c :: rest =>
    if pyIsSpace c then
      if acc.isEmpty then splitWsAux [] rest
      else acc.reverse :: splitWsAux [] rest
    else splitWsAux (c :: acc) rest

/-- Python `str.split()` with no arguments. -/
def splitWs (l : List Char) : List (List Char) := splitWsAux [] l

/-- `" ".join(tokens)`: interleave a single space between tokens. -/
def joinSpace : List (List Char) → List Char
  | [] => []
  | [t] => t
  | t :: ts => t ++ ' ' :: joinSpace ts

/-- `_normalize_whitespace` from `chat.py`:
`" ".join(text.strip().split())`. -/
def normalizeWhitespace (s : String) : String :=
  ⟨joinSpace (splitWs (stripPy s.data))⟩

/-- `_strip_forbidden` from `chat.py`: remove every forbidden character. -/
def stripForbidden (s : String) : String :=
  ⟨s.data.filter (fun c => !(isForbidden c))⟩

/-- ASCII letter test, the character class of `_WORD_PATTERN = [A-Za-z]+`. -/
def isAsciiLetter (c : Char) : Bool :=
  ('A' ≤ c && c ≤ 'Z') || ('a' ≤ c && c ≤ 'z')

/-- Count the maximal runs of ASCII letters; `inRun` records whether the
previous character was a letter.  `len(re.findall(r"[A-Za-z]+", text))` equals
the number of maximal `[A-Za-z]` runs of the text, which this computes. -/
def countWordsAux : Bool → List Char → Nat
  | _, [] => 0
  | inRun, c :: rest =>
    if isAsciiLetter c then (if inRun then 0 else 1) + countWordsAux true rest
    else countWordsAux false rest

/-- `_count_words` from `chat.py`. -/
def countWords (s : String) : Nat := countWordsAux false s.data

/-- Failure reason of the empty-response rule. -/
def emptyReason : String := "the response was empty"

/-- Failure reason of the forbidden-character rule. -/
def forbiddenReason : String := "the response used forbidden symbols or line breaks"

/-- Failure reason of the minimum word-count rule (an f-string in the source). -/
def tooFewReason (n : Nat) : String :=
  "the response only used " ++ toString n ++ " words"

/-- Failure reason of the maximum word-count rule (an f-string in the source). -/
def tooManyReason (n : Nat) : String :=
  "the response used " ++ toString n ++ " words"

/-- `any(ch in _FORBIDDEN_CHARS for ch in content)`. -/
def containsForbidden (s : String) : Bool := s.data.any isForbidden

/-- `_validate_response` from `chat.py`: the four ordered checks, first
failure winning. -/
def validateResponse (cfg : Config) (content : String) : Bool × String :=
  if stripPy content.data = [] then (false, emptyReason)
  else if containsForbidden content then (false, forbiddenReason)
  else
    let normalized := normalizeWhitespace content
    let wordTotal := countWords normalized
    if wordTotal < cfg.wordMin then (false, tooFewReason wordTotal)
    else if wordTotal > cfg.wordMax then (false, tooManyReason wordTotal)
    else (true, "")

/-- The default system prompt of `Settings.llm_system_prompt` (apostrophes
written as escapes). -/
def defaultSystemPrompt : String :=
  "你是一位友善的英語母語者，正在幫助中文初學者練習英語口說。"
  ++ "請嚴格遵守以下規則："
  ++ "1) 每次回覆限制在 2 到 3 句話內，保持簡短清晰。"
  ++ "2) **絕對不使用任何縮寫形式**：寫 I am 而不是 I\x27m，寫 do not 而不是 don\x27t，寫 it is 而不是 it\x27s，寫 cannot 而不是 can\x27t，寫 will not 而不是 won\x27t。絕對禁止使用撇號（apostrophe）。"
  ++ "3) 使用簡單的詞彙和自然的語氣，適當使用逗號來分隔語句。"
  ++ "4) 正確使用標點符號：問句必須用問號（?），陳述句用句號（.），驚嘆句用驚嘆號（!）。可以使用逗號（,）分隔語句。絕不使用引號、表情符號、項目符號、編號列表或特殊符號（# * / % -）。"
  ++ "5) 適當時用簡短的鼓勵語句（如 Good job 或 Keep going）。"

/-- The configuration defaults of `backend/app/core/config.py`:
word minimum 5, word maximum 15, 2 retry attempts, default system prompt. -/
def defaultConfig : Config :=
  { wordMin := 5
    wordMax := 15
    retryAttempts := 2
    systemPrompt := some defaultSystemPrompt }

example : validateResponse defaultConfig "I am very happy today" = (true, "") := by decide
example : validateResponse defaultConfig "" = (false, emptyReason) := by decide
example : validateResponse defaultConfig "\n" = (false, emptyReason) := by decide
example : validateResponse defaultConfig "ok # fine" = (false, forbiddenReason) := by decide
example : validateResponse defaultConfig "Hi there" = (false, tooFewReason 2) := by decide

/-- The 19-word seed sentence used by `_apply_fallback` when no words survive
sanitization. -/
def seedWords : List (List Char) :=
  (["I", "will", "keep", "practising", "clear", "English", "sentences", "each", "day",
    "to", "build", "steady", "confidence", "and", "stay", "calm", "during", "our",
    "conversation"] : List String).map String.data

/-- The 17-word filler phrase of `_apply_fallback`, appended while the word
count is below the minimum. -/
def fillerWords : List (List Char) :=
  (["I", "focus", "on", "calm", "pacing", "and", "thoughtful", "ideas", "while",
    "expressing", "myself", "and", "encouraging", "patient", "progress", "every",
    "day"] : List String).map String.data

/-- One pass of the inner `for token in filler` loop of `_apply_fallback`:
append filler tokens until the maximum word count is reached (at most all 17
of them). -/
def fillPass (cfg : Config) (ws : List (List Char)) : List (List Char) :=
  ws ++ fillerWords.take (cfg.wordMax - ws.length)

/-- The `while len(words) < min` loop of `_apply_fallback`, fuelled.  Each
productive pass grows the word list, so fuel `wordMin + 1` is enough to reach
the loop's fixed point whenever `wordMin ≤ wordMax` (the only configurations
on which the source loop terminates). -/
def fillLoop (cfg : Config) : Nat → List (List Char) → List (List Char)
  | 0, ws => ws
  | fuel + 1, ws =>
    if ws.length < cfg.wordMin then
      let ws' := fillPass cfg ws
      if cfg.wordMin ≤ ws'.length then ws' else fillLoop cfg fuel ws'
    else ws

/-- `fallback.endswith((".", "!", "?"))`. -/
def endsWithTerminal (l : List Char) : Bool :=
  match l.getLast? with
  | some c => c = '.' || c = '!' || c = '?'
  | none => false

/-- The word-list stage of `_apply_fallback`: sanitize and split into
words, reseed from the default sentence when no words survive, truncate to
the maximum, then pad from the filler phrase while below the minimum. -/
def fallbackWordsList (cfg : Config) (original : String) : List (List Char) :=
  let ws0 := splitWs (normalizeWhitespace (stripForbidden original)).data
  let ws1 := if ws0 = [] then seedWords else ws0
  let ws2 := if ws1.length > cfg.wordMax then ws1.take cfg.wordMax else ws1
  fillLoop cfg (cfg.wordMin + 1) ws2

/-- `_apply_fallback` from `chat.py`: compute the word list, join the first
`wordMax` words with single spaces, and append a period when no terminal
punctuation is present. -/
def applyFallback (cfg : Config) (original : String) : String :=
  let fb := joinSpace ((fallbackWordsList cfg original).take cfg.wordMax)
  if endsWithTerminal fb then ⟨fb⟩ else ⟨fb ++ ['.']⟩

example : applyFallback defaultConfig "" =
    "I will keep practising clear English sentences each day to build steady confidence and stay." := by
  decide
example : applyFallback defaultConfig "1 2 3 4 5" = "1 2 3 4 5." := by decide
example : validateResponse defaultConfig (applyFallback defaultConfig "1 2 3 4 5") =
    (false, tooFewReason 0) := by decide
example : applyFallback defaultConfig (applyFallback defaultConfig "1 2 3 4 5") =
    applyFallback defaultConfig "1 2 3 4 5" := by decide
example : applyFallback defaultConfig "Hello there" =
    "Hello there I focus on calm pacing and thoughtful ideas while expressing myself and encouraging." := by
  decide
example : applyFallback defaultConfig (applyFallback defaultConfig "Hello there") =
    applyFallback defaultConfig "Hello there" := by decide
example : validateResponse defaultConfig (applyFallback defaultConfig "") = (true, "") := by decide

/-- `ChatMessage` from `backend/app/schemas/chat.py`: a role ("system",
"user" or "assistant") and the content text. -/
structure ChatMessage where
  role : String
  content : String
  deriving Repr, DecidableEq

/-- `_build_retry_instruction` from `chat.py`. -/
def buildRetryInstruction (reason : String) : String :=
  "Rewrite your previous answer now so it follows every rule: respond in two or three sentences, "
  ++ "use a total of five to fifteen English words, avoid quotation marks, emoji, special symbols "
  ++ "(# * / % -), apostrophes, and bullet lists, and keep commas natural. You failed because "
  ++ reason ++ ". Produce a corrected answer immediately."

/-- Result of the retry orchestrator: the returned text, the raw provider
metadata of the last client call (type parameter `μ`, passthrough in the
source), and the number of client calls performed. -/
structure GenResult (μ : Type) where
  text : String
  meta : μ
  calls : Nat
  deriving Repr, DecidableEq

/-- The loop body of `_generate_response_with_constraints` from `chat.py`.
The LLM client is a function from the conversation to either a transport
error `ε` or a reply with metadata (the source `await llm_service.chat`,
which raises on transport failure).  `remaining` counts the retries still
allowed (`settings.llm_response_retry_attempts - attempt`), `calls` the
client calls already made. -/
def genLoop {ε μ : Type} (cfg : Config)
    (client : List ChatMessage → Except ε (String × μ)) :
    Nat → List ChatMessage → Nat → Except ε (GenResult μ)
  | remaining, msgs, calls =>
    match client msgs with
    | .error e => .error e
    | .ok (content, raw) =>
      let calls' := calls + 1
      let v := validateResponse cfg content
      let normalized := normalizeWhitespace content
      if v.1 then
        .ok ⟨normalizeWhitespace (stripForbidden normalized), raw, calls'⟩
      else
        match remaining with
        | 0 => .ok ⟨applyFallback cfg content, raw, calls'⟩
        | r + 1 =>
          genLoop cfg client r
            (msgs ++ [⟨"assistant", normalized⟩, ⟨"user", buildRetryInstruction v.2⟩])
            calls'

/-- `_generate_response_with_constraints` from `chat.py`: run the loop with
`retryAttempts` retries left on a working copy of the caller's messages. -/
def generateResponseWithConstraints {ε μ : Type} (cfg : Config)
    (client : List ChatMessage → Except ε (String × μ))
    (messages : List ChatMessage) : Except ε (GenResult μ) :=
  genLoop cfg client cfg.retryAttempts messages 0

/-- The two turns appended to the working conversation after a failed
attempt: the assistant's normalized failed reply and the synthesized retry
instruction. -/
def retryTurns (cfg : Config) (content : String) : List ChatMessage :=
  [⟨"assistant", normalizeWhitespace content⟩,
   ⟨"user", buildRetryInstruction (validateResponse cfg content).2⟩]

/-- The conversation reached after `n` more failed attempts of a
never-erroring client `f`, starting from `msgs`. -/
def convoN {μ : Type} (cfg : Config) (f : List ChatMessage → String × μ) :
    Nat → List ChatMessage → List ChatMessage
  | 0, msgs => msgs
  | n + 1, msgs => convoN cfg f n (msgs ++ retryTurns cfg (f msgs).1)

/-- The sequence of conversations passed to a never-erroring client during a
run of the retry loop with `remaining` retries left. -/
def genTrace {μ : Type} (cfg : Config) (f : List ChatMessage → String × μ) :
    Nat → List ChatMessage → List (List ChatMessage)
  | remaining, msgs =>
    if (validateResponse cfg (f msgs).1).1 then [msgs]
    else
      match remaining with
      | 0 => [msgs]
      | r + 1 => msgs :: genTrace cfg f r (msgs ++ retryTurns cfg (f msgs).1)

/-- Wrap a pure client stub as a never-erroring `Except` client. -/
def okClient {μ : Type} (f : List ChatMessage → String × μ) :
    List ChatMessage → Except Unit (String × μ) :=
  fun msgs => .ok (f msgs)

/-- `_with_system_prompt` from `chat.py`: prepend the configured system
prompt when it is non-empty and no message already has the "system" role. -/
def withSystemPrompt (cfg : Config) (messages : List ChatMessage) : List ChatMessage :=
  match cfg.systemPrompt with
  | none => messages
  | some p =>
    if p = "" then messages
    else if messages.any (fun m => m.role = "system") then messages
    else ⟨"system", p⟩ :: messages

/-- Python/JSON values as produced by `json.loads`: `None`, booleans,
numbers (integers; the claims do not involve floats), strings, lists and
objects. -/
inductive PyValue where
  | pyNone
  | pyBool (b : Bool)
  | pyInt (n : Int)
  | pyStr (s : String)
  | pyList (xs : List PyValue)
  | pyDict (entries : List (String × PyValue))
  deriving Repr

/-- Python truthiness of a `PyValue` (`if value:` / `x or y`). -/
def PyValue.truthy : PyValue → Bool
  | .pyNone => false
  | .pyBool b => b
  | .pyInt n => n != 0
  | .pyStr s => !s.isEmpty
  | .pyList xs => !xs.isEmpty
  | .pyDict es => !es.isEmpty

mutual
/-- Python `repr` of a value (string escaping subtleties are not modelled;
no claim depends on the rendering of nested containers). -/
def PyValue.pyRepr : PyValue → String
  | .pyNone => "None"
  | .pyBool true => "True"
  | .pyBool false => "False"
  | .pyInt n => toString n
  | .pyStr s => "\x27" ++ s ++ "\x27"
  | .pyList xs => "[" ++ pyReprList xs ++ "]"
  | .pyDict es => "\x7b" ++ pyReprDict es ++ "\x7d"

/-- Comma-joined `repr`s of list elements. -/
def pyReprList : List PyValue → String
  | [] => ""
  | [x] => x.pyRepr
  | x :: y :: xs => x.pyRepr ++ ", " ++ pyReprList (y :: xs)

/-- Comma-joined `repr`s of dict entries (the key rendered as a Python
string repr). -/
def pyReprDict : List (String × PyValue) → String
  | [] => ""
  | [e] => "\x27" ++ e.1 ++ "\x27: " ++ e.2.pyRepr
  | e :: f :: es =>
    "\x27" ++ e.1 ++ "\x27: " ++ e.2.pyRepr ++ ", " ++ pyReprDict (f :: es)
end

/-- Python `str()` of a value: the identity on strings, `repr`-like
otherwise. -/
def PyValue.pyToStr : PyValue → String
  | .pyStr s => s
  | v => v.pyRepr

/-- `dict.get(key)` on a decoded JSON object: `None` when the key is
absent. -/
def dictGet (es : List (String × PyValue)) (k : String) : PyValue :=
  match es.find? (fun e => e.1 = k) with
  | some e => e.2
  | none => .pyNone

/-- Python `stripped.split("\x60\x60\x60")`: split on occurrences of three
backticks, scanning left to right (`acc` holds the current segment in
reverse). -/
def splitTicks : List Char → List Char → List (List Char)
  | acc, '\x60' :: '\x60' :: '\x60' :: rest => acc.reverse :: splitTicks [] rest
  | acc, c :: rest => splitTicks (c :: acc) rest
  | acc, [] => [acc.reverse]

/-- The code-fence removal step shared by both normalizers: when the text
starts with three backticks, split on triple backticks, strip each segment,
drop the empty ones, and keep the last segment (dictionary) or the first
(grammar). -/
def stripCodeFence (takeLast : Bool) (l : List Char) : List Char :=
  if l.take 3 = ['\x60', '\x60', '\x60'] then
    let segs := ((splitTicks [] l).map stripPy).filter (fun s => !s.isEmpty)
    match (if takeLast then segs.getLast? else segs.head?) with
    | some s => s
    | none => l
  else l

/-- `rfind` of a character: index of its last occurrence. -/
def rfindIdxChar (c : Char) (l : List Char) : Option Nat :=
  match l.reverse.findIdx? (fun d => d = c) with
  | some j => some (l.length - 1 - j)
  | none => none

/-- The brace-extraction step shared by both normalizers: when the text is
non-empty and does not left-strip to an opening brace, cut out the substring
from the first opening brace to the last closing brace (when both exist in
that order). -/
def extractBraced (l : List Char) : List Char :=
  if l.isEmpty then l
  else if (l.dropWhile pyIsSpace).take 1 = ['\x7b'] then l
  else
    match l.findIdx? (fun d => d = '\x7b'), rfindIdxChar '\x7d' l with
    | some s, some e => if s < e then (l.drop s).take (e + 1 - s) else l
    | _, _ => l

/-- The full pre-decode munging pipeline of `_normalize_dictionary_result`
(`takeLast = true`) and `_normalize_grammar_result` (`takeLast = false`):
code-fence removal, "json" language-hint removal (checked case-insensitively
on the first four characters), then brace extraction.  The input is the
already-stripped payload. -/
def mungePayload (takeLast : Bool) (l : List Char) : List Char :=
  let s1 := stripCodeFence takeLast l
  let s2 := if (s1.take 4).map Char.toLower = ['j', 's', 'o', 'n']
            then stripPy (s1.drop 4) else s1
  extractBraced s2

/-- `DictionaryResponse` from `backend/app/schemas/dictionary.py`, restricted
to the fields `_normalize_dictionary_result` populates.  `partOfSpeech` is
the `str | None` field as pydantic v2 accepts it; assignments the response
model would reject surface as errors of the normalizer (see
`partOfSpeechField`). -/
structure DictionaryResponse where
  headword : String
  partOfSpeech : Option String
  definition : String
  examples : List String
  deriving Repr

/-- The `part_of_speech` value the source assigns, validated as pydantic v2
validates the `str | None` response field.  For a list-shaped field the
source assigns its first element unconverted
(`part_of_speech_raw[0] if part_of_speech_raw else None`), and the
`DictionaryResponse(...)` construction raises `ValidationError` when that
element is neither a string nor `None` (pydantic v2 does not coerce
numbers, booleans or containers to `str`).  A string field is stripped with
the empty string normalized to `None`; any other shape yields `None`. -/
def partOfSpeechField (es : List (String × PyValue)) : Except String (Option String) :=
  match dictGet es "part_of_speech" with
  | .pyList xs =>
    match xs.head? with
    | none => .ok none
    | some (.pyStr s) => .ok (some s)
    | some .pyNone => .ok none
    | some _ => .error "ValidationError: part_of_speech is neither a string nor None"
  | .pyStr s2 => .ok (if stripPy s2.data = [] then none else some ⟨stripPy s2.data⟩)
  | _ => .ok none

/-- `_normalize_dictionary_result` from `dictionary.py`, with `json.loads`
abstracted as the `decode` parameter (`none` models `JSONDecodeError`).
Two error paths of the source are modelled by the `Except` error case: the
`.strip()` call on a truthy non-string `headword` raises `AttributeError`,
and the `DictionaryResponse(...)` construction raises pydantic
`ValidationError` when the assigned `part_of_speech` value is a non-string
non-`None` list head (`partOfSpeechField`). -/
def normalizeDictionaryResult (decode : String → Option PyValue)
    (payload : String) (fallbackWord : String) : Except String DictionaryResponse :=
  let stripped0 := stripPy payload.data
  if stripped0.isEmpty then
    .ok ⟨fallbackWord, none, "No definition", []⟩
  else
    let stripped := mungePayload true stripped0
    match decode ⟨stripped⟩ with
    | none => .ok ⟨fallbackWord, none, ⟨stripped⟩, []⟩
    | some (.pyDict es) =>
      let hwRaw := dictGet es "headword"
      let hwOr := if hwRaw.truthy then hwRaw else .pyStr fallbackWord
      match hwOr with
      | .pyStr s =>
        let s' : String := ⟨stripPy s.data⟩
        let headword := if s' = "" then fallbackWord else s'
        let defnRaw := dictGet es "definition"
        let defnVal := if defnRaw.truthy then defnRaw else .pyStr "No definition"
        let defnS : String := ⟨stripPy defnVal.pyToStr.data⟩
        let definition := if defnS = "" then "No definition" else defnS
        let examples : List String :=
          match dictGet es "examples" with
          | .pyList xs =>
            ((xs.map (fun x => (⟨stripPy x.pyToStr.data⟩ : String))).filter
              (fun s => s ≠ "")).take 3
          | .pyStr s2 => if stripPy s2.data = [] then [] else [⟨stripPy s2.data⟩]
          | _ => []
        match partOfSpeechField es with
        | .error e => .error e
        | .ok pos => .ok ⟨headword, pos, definition, examples⟩
      | _ => .error "AttributeError: strip called on a non-string headword"
    | some _ => .ok ⟨fallbackWord, none, ⟨stripped⟩, []⟩

/-- `_normalize_grammar_result` from `grammar.py`, with `json.loads`
abstracted as the `decode` parameter.  Returns
`(is_correct, feedback, suggestion)`; every coercion it performs
(`bool(...)`, `str(...)`) is total in Python, so the model is total. -/
def normalizeGrammarResult (decode : String → Option PyValue)
    (raw : String) : Bool × String × Option String :=
  let stripped0 := stripPy raw.data
  if stripped0.isEmpty then
    (false, "No grammar feedback returned. Please try again.", none)
  else
    let stripped := mungePayload false stripped0
    match decode ⟨stripped⟩ with
    | none => (false, ⟨stripped⟩, none)
    | some (.pyDict es) =>
      let isCorrect := (dictGet es "is_correct").truthy
      let fbRaw := dictGet es "feedback"
      let fbVal := if fbRaw.truthy then fbRaw else .pyStr ""
      let feedback0 : String := ⟨stripPy fbVal.pyToStr.data⟩
      let feedback := if feedback0 = "" then "Grammar check completed." else feedback0
      let suggestion0 : Option String :=
        match dictGet es "suggestion" with
        | .pyNone => none
        | v => some ⟨stripPy v.pyToStr.data⟩
      let suggestion := match suggestion0 with
        | some "" => none
        | o => o
      (isCorrect, feedback, suggestion)
    | some _ => (false, ⟨stripped⟩, none)

/-- A decoder stub that agrees with Python `json.loads` on the single input
it accepts: the text consisting of an object with an integer `headword`
field. -/
def decodeHeadwordFive : String → Option PyValue := fun s =>
  if s = "\x7b\"headword\": 5\x7d" then some (.pyDict [("headword", .pyInt 5)])
  else none

example :
    normalizeDictionaryResult decodeHeadwordFive "\x7b\"headword\": 5\x7d" "apple"
      = .error "AttributeError: strip called on a non-string headword" := by rfl
example :
    normalizeDictionaryResult (fun _ => none) "not json at all" "apple"
      = .ok ⟨"apple", none, "not json at all", []⟩ := by rfl
example :
    normalizeGrammarResult (fun _ => none) "not json at all"
      = (false, "not json at all", none) := by rfl

/-! ### Lemmas about whitespace splitting and joining -/

/-- A well-formed token: non-empty and free of whitespace. -/
def goodToken (t : List Char) : Prop :=
  t ≠ [] ∧ ∀ c ∈ t, pyIsSpace c = false

instance (t : List Char) : Decidable (goodToken t) := by
  unfold goodToken; infer_instance

theorem splitWsAux_tokens (l : List Char) :
    ∀ (acc : List Char), (∀ c ∈ acc, pyIsSpace c = false) →
      ∀ t ∈ splitWsAux acc l, goodToken t ∧ ∀ c ∈ t, c ∈ acc ∨ c ∈ l := by
  induction l with
  | nil =>
    intro acc hacc t ht
    simp only [splitWsAux] at ht
    by_cases h : acc.isEmpty
    · simp [h] at ht
    · simp [h] at ht
      subst ht
      refine ⟨⟨?_, ?_⟩, ?_⟩
      · simp [List.isEmpty_iff] at h
        simpa using h
      · intro c hc; exact hacc c (List.mem_reverse.mp hc)
      · intro c hc; exact Or.inl (List.mem_reverse.mp hc)
  | cons x rest ih =>
    intro acc hacc t ht
    simp only [splitWsAux] at ht
    by_cases hx : pyIsSpace x
    · simp only [hx, if_true] at ht
      by_cases hempty : acc.isEmpty
      · simp only [hempty, if_true] at ht
        obtain ⟨hg, hmem⟩ := ih [] (by simp) t ht
        exact ⟨hg, fun c hc => by
          rcases hmem c hc with h | h
          · simp at h
          · exact Or.inr (List.mem_cons_of_mem _ h)⟩
      · simp only [hempty, if_false] at ht
        rcases List.mem_cons.mp ht with rfl | ht'
        · refine ⟨⟨?_, ?_⟩, ?_⟩
          · simp [List.isEmpty_iff] at hempty
            simpa using hempty
          · intro c hc; exact hacc c (List.mem_reverse.mp hc)
          · intro c hc; exact Or.inl (List.mem_reverse.mp hc)
        · obtain ⟨hg, hmem⟩ := ih [] (by simp) t ht'
          exact ⟨hg, fun c hc => by
            rcases hmem c hc with h | h
            · simp at h
            · exact Or.inr (List.mem_cons_of_mem _ h)⟩
    · simp only [hx, if_false] at ht
      have hacc' : ∀ c ∈ x :: acc, pyIsSpace c = false := by
        intro c hc
        rcases List.mem_cons.mp hc with rfl | hc'
        · simpa using hx
        · exact hacc c hc'
      obtain ⟨hg, hmem⟩ := ih (x :: acc) hacc' t ht
      refine ⟨hg, fun c hc => ?_⟩
      rcases hmem c hc with h | h
      · rcases List.mem_cons.mp h with rfl | h'
        · exact Or.inr (List.mem_cons_self _ _)
        · exact Or.inl h'
      · exact Or.inr (List.mem_cons_of_mem _ h)

theorem splitWs_tokens (l : List Char) :
    ∀ t ∈ splitWs l, goodToken t ∧ ∀ c ∈ t, c ∈ l := by
  intro t ht
  obtain ⟨hg, hmem⟩ := splitWsAux_tokens l [] (by simp) t ht
  exact ⟨hg, fun c hc => by
    rcases hmem c hc with h | h
    · simp at h
    · exact h⟩

theorem splitWsAux_ws_only (sp : List Char) :
    ∀ (acc : List Char), (∀ c ∈ sp, pyIsSpace c = true) →
      splitWsAux acc sp = if acc.isEmpty then [] else [acc.reverse] := by
  induction sp with
  | nil => intro acc _; rfl
  | cons x rest ih =>
    intro acc hsp
    have hx : pyIsSpace x = true := hsp x (List.mem_cons_self _ _)
    have hrest : ∀ c ∈ rest, pyIsSpace c = true :=
      fun c hc => hsp c (List.mem_cons_of_mem _ hc)
    simp only [splitWsAux, hx, if_true]
    by_cases hempty : acc.isEmpty
    · simp [hempty, ih [] hrest]
    · simp [hempty, ih [] hrest]

theorem splitWsAux_append_ws (l : List Char) :
    ∀ (sp acc : List Char), (∀ c ∈ sp, pyIsSpace c = true) →
      splitWsAux acc (l ++ sp) = splitWsAux acc l := by
  induction l with
  | nil =>
    intro sp acc hsp
    simp only [List.nil_append]
    rw [splitWsAux_ws_only sp acc hsp]
    rfl
  | cons x rest ih =>
    intro sp acc hsp
    simp only [List.cons_append, splitWsAux]
    by_cases hx : pyIsSpace x
    · by_cases hempty : acc.isEmpty <;> simp [hx, hempty, ih sp _ hsp]
    · simp [hx, ih sp _ hsp]

theorem splitWsAux_nonws_run (cs : List Char) :
    ∀ (rest acc : List Char), (∀ c ∈ cs, pyIsSpace c = false) →
      splitWsAux acc (cs ++ rest) = splitWsAux (cs.reverse ++ acc) rest := by
  induction cs with
  | nil => intro rest acc _; simp
  | cons x cs' ih =>
    intro rest acc hcs
    have hx : pyIsSpace x = false := hcs x (List.mem_cons_self _ _)
    have hcs' : ∀ c ∈ cs', pyIsSpace c = false :=
      fun c hc => hcs c (List.mem_cons_of_mem _ hc)
    simp only [List.cons_append, splitWsAux, hx, Bool.false_eq_true, if_false]
    rw [show cs'.append rest = cs' ++ rest from rfl, ih rest (x :: acc) hcs']
    simp

theorem splitWsAux_dropWhile (l : List Char) :
    splitWsAux [] (l.dropWhile pyIsSpace) = splitWsAux [] l := by
  induction l with
  | nil => rfl
  | cons x rest ih =>
    by_cases hx : pyIsSpace x
    · rw [List.dropWhile_cons_of_pos hx, ih]
      simp [splitWsAux, hx]
    · rw [List.dropWhile_cons_of_neg hx]

theorem splitWs_stripPy (l : List Char) : splitWs (stripPy l) = splitWs l := by
  unfold stripPy dropTrailingWs splitWs
  set m := l.dropWhile pyIsSpace with hm
  have hdecomp : m = (m.reverse.dropWhile pyIsSpace).reverse
      ++ (m.reverse.takeWhile pyIsSpace).reverse := by
    have hsplit := List.takeWhile_append_dropWhile (p := pyIsSpace) (l := m.reverse)
    have hrev : (m.reverse.takeWhile pyIsSpace ++ m.reverse.dropWhile pyIsSpace).reverse
        = m := by rw [hsplit, List.reverse_reverse]
    rw [List.reverse_append] at hrev
    exact hrev.symm
  have hws : ∀ c ∈ (m.reverse.takeWhile pyIsSpace).reverse, pyIsSpace c = true := by
    intro c hc
    exact List.mem_takeWhile_imp (List.mem_reverse.mp hc)
  calc splitWsAux [] (m.reverse.dropWhile pyIsSpace).reverse
      = splitWsAux [] ((m.reverse.dropWhile pyIsSpace).reverse
          ++ (m.reverse.takeWhile pyIsSpace).reverse) :=
        (splitWsAux_append_ws _ _ [] hws).symm
    _ = splitWsAux [] m := by rw [← hdecomp]
    _ = splitWsAux [] l := by rw [hm]; exact splitWsAux_dropWhile l

theorem mem_stripPy (l : List Char) (c : Char) (h : c ∈ stripPy l) : c ∈ l := by
  unfold stripPy dropTrailingWs at h
  have h1 : c ∈ (l.dropWhile pyIsSpace).reverse.dropWhile pyIsSpace :=
    List.mem_reverse.mp h
  have h2 : c ∈ (l.dropWhile pyIsSpace).reverse :=
    (List.dropWhile_sublist _).mem h1
  have h3 : c ∈ l.dropWhile pyIsSpace := List.mem_reverse.mp h2
  exact (List.dropWhile_sublist _).mem h3

theorem mem_joinSpace (ts : List (List Char)) (c : Char) (h : c ∈ joinSpace ts) :
    c = ' ' ∨ ∃ t ∈ ts, c ∈ t := by
  induction ts with
  | nil => simp [joinSpace] at h
  | cons t ts' ih =>
    match ts', h with
    | [], h => exact Or.inr ⟨t, by simp, h⟩
    | t' :: ts'', h =>
      simp only [joinSpace] at h
      rcases List.mem_append.mp h with h1 | h1
      · exact Or.inr ⟨t, by simp, h1⟩
      · rcases List.mem_cons.mp h1 with rfl | h2
        · exact Or.inl rfl
        · rcases ih h2 with h3 | ⟨u, hu, hcu⟩
          · exact Or.inl h3
          · exact Or.inr ⟨u, List.mem_cons_of_mem _ hu, hcu⟩

theorem joinSpace_cons (t : List Char) (ts : List (List Char)) (h : ts ≠ []) :
    joinSpace (t :: ts) = t ++ ' ' :: joinSpace ts := by
  match ts, h with
  | t' :: ts', _ => rfl

theorem splitWs_joinSpace (ts : List (List Char)) (h : ∀ t ∈ ts, goodToken t) :
    splitWs (joinSpace ts) = ts := by
  induction ts with
  | nil => rfl
  | cons t ts' ih =>
    obtain ⟨htne, htws⟩ := h t (List.mem_cons_self _ _)
    have hts' : ∀ u ∈ ts', goodToken u := fun u hu => h u (List.mem_cons_of_mem _ hu)
    match ts' with
    | [] =>
      show splitWsAux [] (joinSpace [t]) = [t]
      have : joinSpace [t] = t ++ [] := by simp [joinSpace]
      rw [this, splitWsAux_nonws_run t [] [] htws]
      simp only [List.append_nil, splitWsAux]
      have : ¬ t.reverse.isEmpty := by
        simp [List.isEmpty_iff, htne]
      simp [this]
    | t' :: ts'' =>
      show splitWsAux [] (joinSpace (t :: t' :: ts'')) = t :: t' :: ts''
      rw [joinSpace_cons t (t' :: ts'') (by simp)]
      rw [splitWsAux_nonws_run t (' ' :: joinSpace (t' :: ts'')) [] htws]
      have hsp : pyIsSpace ' ' = true := by decide
      simp only [List.append_nil, splitWsAux, hsp, if_true]
      have : ¬ t.reverse.isEmpty := by simp [List.isEmpty_iff, htne]
      simp only [this, Bool.false_eq_true, if_false, List.reverse_reverse]
      exact congrArg (t :: ·) (ih hts')

theorem joinSpace_ne_nil (ts : List (List Char)) (hne : ts ≠ [])
    (h : ∀ t ∈ ts, goodToken t) : joinSpace ts ≠ [] := by
  match ts, hne with
  | [t], _ =>
    simpa [joinSpace] using (h t (by simp)).1
  | t :: t' :: ts', _ =>
    rw [joinSpace_cons t (t' :: ts') (by simp)]
    intro hcontra
    have := (h t (by simp)).1
    cases t with
    | nil => exact this rfl
    | cons a as => simp at hcontra

/-! ### Lemmas about whitespace normalization -/

theorem normalizeWhitespace_data (s : String) :
    (normalizeWhitespace s).data = joinSpace (splitWs s.data) := by
  show joinSpace (splitWs (stripPy s.data)) = joinSpace (splitWs s.data)
  rw [splitWs_stripPy]

theorem splitWs_normalizeWhitespace (s : String) :
    splitWs (normalizeWhitespace s).data = splitWs s.data := by
  rw [normalizeWhitespace_data]
  exact splitWs_joinSpace _ (fun t ht => (splitWs_tokens s.data t ht).1)

theorem normalizeWhitespace_idem (s : String) :
    normalizeWhitespace (normalizeWhitespace s) = normalizeWhitespace s := by
  have h1 : (normalizeWhitespace (normalizeWhitespace s)).data
      = (normalizeWhitespace s).data := by
    rw [normalizeWhitespace_data, splitWs_normalizeWhitespace,
      normalizeWhitespace_data]
  cases hs : normalizeWhitespace (normalizeWhitespace s)
  cases ht : normalizeWhitespace s
  rw [hs, ht] at h1
  exact congrArg String.mk h1

theorem mem_normalizeWhitespace (s : String) (c : Char)
    (h : c ∈ (normalizeWhitespace s).data) : c = ' ' ∨ c ∈ s.data := by
  rw [normalizeWhitespace_data] at h
  rcases mem_joinSpace _ _ h with h1 | ⟨t, ht, hct⟩
  · exact Or.inl h1
  · exact Or.inr ((splitWs_tokens s.data t ht).2 c hct)

theorem stripForbidden_eq_self (s : String)
    (h : ∀ c ∈ s.data, isForbidden c = false) : stripForbidden s = s := by
  show (⟨s.data.filter (fun c => !(isForbidden c))⟩ : String) = s
  have : s.data.filter (fun c => !(isForbidden c)) = s.data := by
    apply List.filter_eq_self.mpr
    intro c hc
    simp [h c hc]
  rw [this]

/-! ### Lemmas about `countWords` -/

theorem countWordsAux_append_space (l : List Char) :
    ∀ (b : Bool) (rest : List Char),
      countWordsAux b (l ++ ' ' :: rest) = countWordsAux b l + countWordsAux false rest := by
  induction l with
  | nil =>
    intro b rest
    simp [countWordsAux, isAsciiLetter]
  | cons x l' ih =>
    intro b rest
    by_cases hx : isAsciiLetter x
    · simp only [List.cons_append, List.append_eq, countWordsAux, hx, if_true, ih]
      omega
    · simp only [List.cons_append, List.append_eq, countWordsAux, hx,
        Bool.false_eq_true, if_false, ih]

theorem countWordsAux_append_nonletter (l : List Char) (c : Char)
    (hc : isAsciiLetter c = false) :
    ∀ b : Bool, countWordsAux b (l ++ [c]) = countWordsAux b l := by
  induction l with
  | nil =>
    intro b
    simp [countWordsAux, hc]
  | cons x l' ih =>
    intro b
    by_cases hx : isAsciiLetter x
    · simp only [List.cons_append, List.append_eq, countWordsAux, hx, if_true, ih]
    · simp only [List.cons_append, List.append_eq, countWordsAux, hx,
        Bool.false_eq_true, if_false, ih]

theorem countWordsAux_true_letters (u : List Char)
    (hu : ∀ c ∈ u, isAsciiLetter c = true) : countWordsAux true u = 0 := by
  induction u with
  | nil => rfl
  | cons y u' ihu =>
    have hy := hu y (List.mem_cons_self _ _)
    simp only [countWordsAux, hy, if_true, if_pos rfl, Nat.zero_add]
    exact ihu (fun c hc => hu c (List.mem_cons_of_mem _ hc))

theorem countWordsAux_all_letters (t : List Char) (hne : t ≠ [])
    (h : ∀ c ∈ t, isAsciiLetter c = true) :
    countWordsAux false t = 1 := by
  match t, hne with
  | x :: t', _ =>
    have hx : isAsciiLetter x = true := h x (List.mem_cons_self _ _)
    have hall : ∀ c ∈ t', isAsciiLetter c = true :=
      fun c hc => h c (List.mem_cons_of_mem _ hc)
    simp only [countWordsAux, hx, if_true, Bool.false_eq_true, if_false]
    rw [countWordsAux_true_letters t' hall]

theorem countWordsAux_joinSpace (ts : List (List Char))
    (h : ∀ t ∈ ts, countWordsAux false t = 1) :
    countWordsAux false (joinSpace ts) = ts.length := by
  induction ts with
  | nil => rfl
  | cons t ts' ih =>
    match ts' with
    | [] =>
      simpa [joinSpace] using h t (by simp)
    | t' :: ts'' =>
      rw [joinSpace_cons t (t' :: ts'') (by simp), countWordsAux_append_space]
      rw [h t (by simp), ih (fun u hu => h u (List.mem_cons_of_mem _ hu))]
      simp [Nat.add_comm]

/-! ### The validator's ordered rules (claims C3, C4) -/

/-- C4: `_validate_response` implements the four ordered rules with first
failure winning: empty-after-trim fails first with the "empty" reason; then
any forbidden character fails with the "forbidden symbols" reason; then a
letter-run word count (after whitespace normalization) below the configured
minimum fails with the "too few words" reason; then a count above the
configured maximum fails with the "too many words" reason; and every text
that is non-empty after trimming, free of forbidden characters, and whose
word count lies in `[wordMin, wordMax]` passes. -/
theorem validateResponse_ordered_rules (cfg : Config) (s : String) :
    (stripPy s.data = [] → validateResponse cfg s = (false, emptyReason)) ∧
    (stripPy s.data ≠ [] → containsForbidden s = true →
      validateResponse cfg s = (false, forbiddenReason)) ∧
    (stripPy s.data ≠ [] → containsForbidden s = false →
      countWords (normalizeWhitespace s) < cfg.wordMin →
      validateResponse cfg s = (false, tooFewReason (countWords (normalizeWhitespace s)))) ∧
    (stripPy s.data ≠ [] → containsForbidden s = false →
      cfg.wordMin ≤ countWords (normalizeWhitespace s) →
      cfg.wordMax < countWords (normalizeWhitespace s) →
      validateResponse cfg s = (false, tooManyReason (countWords (normalizeWhitespace s)))) ∧
    (stripPy s.data ≠ [] → containsForbidden s = false →
      cfg.wordMin ≤ countWords (normalizeWhitespace s) →
      countWords (normalizeWhitespace s) ≤ cfg.wordMax →
      validateResponse cfg s = (true, "")) := by
  refine ⟨?_, ?_, ?_, ?_, ?_⟩
  · intro h1; simp [validateResponse, h1]
  · intro h1 h2; simp [validateResponse, h1, h2]
  · intro h1 h2 h3; simp [validateResponse, h1, h2, h3]
  · intro h1 h2 h3 h4
    simp [validateResponse, h1, h2, Nat.not_lt.mpr h3, h4]
  · intro h1 h2 h3 h4
    simp [validateResponse, h1, h2, Nat.not_lt.mpr h3, Nat.not_lt.mpr h4]

/-- C4 witness: the five rules exercised at concrete inputs through
`validateResponse_ordered_rules`. -/
theorem validateResponse_ordered_rules_witness :
    validateResponse defaultConfig " \t " = (false, emptyReason) ∧
    validateResponse defaultConfig "go * now" = (false, forbiddenReason) ∧
    validateResponse defaultConfig "Hi there" = (false, tooFewReason 2) ∧
    validateResponse defaultConfig
      "one two three four five six seven eight nine ten eleven twelve thirteen fourteen fifteen sixteen"
      = (false, tooManyReason 16) ∧
    validateResponse defaultConfig "I am very happy today" = (true, "") :=
  ⟨(validateResponse_ordered_rules defaultConfig " \t ").1 (by decide),
   (validateResponse_ordered_rules defaultConfig "go * now").2.1 (by decide) (by decide),
   (validateResponse_ordered_rules defaultConfig "Hi there").2.2.1
     (by decide) (by decide) (by decide),
   (validateResponse_ordered_rules defaultConfig
     "one two three four five six seven eight nine ten eleven twelve thirteen fourteen fifteen sixteen").2.2.2.1
     (by decide) (by decide) (by decide) (by decide),
   (validateResponse_ordered_rules defaultConfig "I am very happy today").2.2.2.2
     (by decide) (by decide) (by decide) (by decide)⟩

/-- C3 counterexample: the lone newline contains a forbidden character, yet
`_validate_response` fails it with the "empty" reason (the empty-after-trim
rule fires first), not the "forbidden symbols" reason. -/
theorem lone_newline_fails_with_empty_reason :
    (isForbidden '\n' = true ∧ '\n' ∈ ("\n" : String).data) ∧
    validateResponse defaultConfig "\n" = (false, emptyReason) ∧
    emptyReason ≠ forbiddenReason := by
  decide

/-- C3 amended: every text containing a forbidden character fails
validation, and the reason is the "forbidden symbols" reason whenever the
text is non-empty after trimming (texts of forbidden whitespace only fail
with the "empty" reason instead). -/
theorem validateResponse_forbidden_always_fails (cfg : Config) (s : String)
    (h : ∃ c ∈ s.data, isForbidden c = true) :
    (validateResponse cfg s).1 = false ∧
    (stripPy s.data ≠ [] → validateResponse cfg s = (false, forbiddenReason)) := by
  have hforb : containsForbidden s = true := by
    rcases h with ⟨c, hc, hf⟩
    exact List.any_eq_true.mpr ⟨c, hc, hf⟩
  constructor
  · by_cases h1 : stripPy s.data = []
    · simp [validateResponse, h1]
    · simp [validateResponse, h1, hforb]
  · intro h1
    simp [validateResponse, h1, hforb]

/-- C3 witness: a concrete text with a forbidden character, non-empty after
trimming, fails with the "forbidden symbols" reason. -/
theorem validateResponse_forbidden_always_fails_witness :
    (∃ c ∈ ("a#b" : String).data, isForbidden c = true) ∧
    validateResponse defaultConfig "a#b" = (false, forbiddenReason) :=
  ⟨by decide,
   (validateResponse_forbidden_always_fails defaultConfig "a#b" (by decide)).2 (by decide)⟩

/-! ### The system prompt injection (claim C10) -/

/-- C10: when the configured default system prompt is `None` or empty, or
some message already has the "system" role, the message list passes through
unchanged; when the prompt is non-empty and no message has the "system"
role, exactly one system message carrying the prompt is prepended at
position 0. -/
theorem withSystemPrompt_cases (cfg : Config) (msgs : List ChatMessage) :
    ((cfg.systemPrompt = none ∨ cfg.systemPrompt = some "") →
      withSystemPrompt cfg msgs = msgs) ∧
    (∀ p, cfg.systemPrompt = some p → p ≠ "" →
      (∃ m ∈ msgs, m.role = "system") → withSystemPrompt cfg msgs = msgs) ∧
    (∀ p, cfg.systemPrompt = some p → p ≠ "" →
      (∀ m ∈ msgs, m.role ≠ "system") →
      withSystemPrompt cfg msgs = ⟨"system", p⟩ :: msgs) := by
  refine ⟨?_, ?_, ?_⟩
  · rintro (h | h) <;> simp [withSystemPrompt, h]
  · intro p hp hpne hex
    have hany : msgs.any (fun m => m.role = "system") = true := by
      rcases hex with ⟨m, hm, hrole⟩
      exact List.any_eq_true.mpr ⟨m, hm, by simp [hrole]⟩
    simp [withSystemPrompt, hp, hpne, hany]
  · intro p hp hpne hall
    have hany : msgs.any (fun m => m.role = "system") = false := by
      by_cases h : msgs.any (fun m => m.role = "system") = true
      · rcases List.any_eq_true.mp h with ⟨m, hm, hrole⟩
        exact absurd (of_decide_eq_true hrole) (hall m hm)
      · simpa using h
    simp [withSystemPrompt, hp, hpne, hany]

/-- C10 witness: the three behaviours at concrete message lists through
`withSystemPrompt_cases`. -/
theorem withSystemPrompt_cases_witness :
    withSystemPrompt ⟨5, 15, 2, none⟩ [⟨"user", "hi"⟩] = [⟨"user", "hi"⟩] ∧
    withSystemPrompt ⟨5, 15, 2, some "Be brief"⟩ [⟨"system", "x"⟩, ⟨"user", "hi"⟩]
      = [⟨"system", "x"⟩, ⟨"user", "hi"⟩] ∧
    withSystemPrompt ⟨5, 15, 2, some "Be brief"⟩ [⟨"user", "hi"⟩]
      = [⟨"system", "Be brief"⟩, ⟨"user", "hi"⟩] :=
  ⟨(withSystemPrompt_cases _ _).1 (Or.inl rfl),
   (withSystemPrompt_cases _ _).2.1 "Be brief" rfl (by decide)
     ⟨⟨"system", "x"⟩, by simp, rfl⟩,
   (withSystemPrompt_cases _ _).2.2 "Be brief" rfl (by decide) (by decide)⟩

/-! ### The retry orchestrator (claims C2, C5, C6, C8) -/

theorem genLoop_unfold {ε μ : Type} (cfg : Config)
    (client : List ChatMessage → Except ε (String × μ))
    (remaining : Nat) (msgs : List ChatMessage) (calls : Nat) :
    genLoop cfg client remaining msgs calls =
      match client msgs with
      | .error e => .error e
      | .ok (content, raw) =>
        let calls' := calls + 1
        let v := validateResponse cfg content
        let normalized := normalizeWhitespace content
        if v.1 then
          .ok ⟨normalizeWhitespace (stripForbidden normalized), raw, calls'⟩
        else
          match remaining with
          | 0 => .ok ⟨applyFallback cfg content, raw, calls'⟩
          | r + 1 =>
            genLoop cfg client r
              (msgs ++ [⟨"assistant", normalized⟩, ⟨"user", buildRetryInstruction v.2⟩])
              calls' := by
  rw [genLoop]

/-- C8: whenever the client call of the current attempt fails with a
transport error, the retry orchestrator propagates that error immediately:
no further attempts are made and the fallback is not invoked. -/
theorem genLoop_transport_error_propagates {ε μ : Type} (cfg : Config)
    (client : List ChatMessage → Except ε (String × μ)) (e : ε)
    (remaining : Nat) (msgs : List ChatMessage) (calls : Nat)
    (h : client msgs = .error e) :
    genLoop cfg client remaining msgs calls = .error e := by
  rw [genLoop_unfold, h]

/-- C8 witness: a client erroring on the first call makes the whole
orchestrator return that error. -/
theorem genLoop_transport_error_propagates_witness :
    generateResponseWithConstraints defaultConfig
      (fun _ => (Except.error "boom" : Except String (String × Unit))) [] =
      .error "boom" :=
  genLoop_transport_error_propagates defaultConfig _ "boom" 2 [] 0 rfl

theorem genLoop_all_invalid {μ : Type} (cfg : Config)
    (f : List ChatMessage → String × μ)
    (hInv : ∀ ms, (validateResponse cfg (f ms).1).1 = false) :
    ∀ (r : Nat) (msgs : List ChatMessage) (calls : Nat),
      genLoop cfg (okClient f) r msgs calls =
        .ok ⟨applyFallback cfg (f (convoN cfg f r msgs)).1,
             (f (convoN cfg f r msgs)).2, calls + r + 1⟩ := by
  intro r
  induction r with
  | zero =>
    intro msgs calls
    rw [genLoop_unfold]
    rcases hfm : f msgs with ⟨c, m⟩
    have hv := hInv msgs
    rw [hfm] at hv
    simp only [okClient, hfm, hv, Bool.false_eq_true, if_false]
    simp [convoN, hfm]
  | succ r ih =>
    intro msgs calls
    rw [genLoop_unfold]
    rcases hfm : f msgs with ⟨c, m⟩
    have hv := hInv msgs
    rw [hfm] at hv
    simp only [okClient, hfm, hv, Bool.false_eq_true, if_false]
    rw [ih]
    have hconvo : convoN cfg f (r + 1) msgs
        = convoN cfg f r
            (msgs ++ [⟨"assistant", normalizeWhitespace c⟩,
                      ⟨"user", buildRetryInstruction (validateResponse cfg c).2⟩]) := by
      simp [convoN, retryTurns, hfm]
    rw [hconvo]
    have harith : calls + 1 + r + 1 = calls + (r + 1) + 1 := by omega
    rw [harith]

/-- C2: with a client that returns an invalid reply on every conversation,
the retry orchestrator makes exactly `retryAttempts + 1` client calls, then
returns the fallback applied to the last raw reply, paired with the
metadata of the last (failed) attempt. -/
theorem generate_all_invalid_fallback {μ : Type} (cfg : Config)
    (f : List ChatMessage → String × μ) (msgs : List ChatMessage)
    (hInv : ∀ ms, (validateResponse cfg (f ms).1).1 = false) :
    generateResponseWithConstraints cfg (okClient f) msgs =
      .ok ⟨applyFallback cfg (f (convoN cfg f cfg.retryAttempts msgs)).1,
           (f (convoN cfg f cfg.retryAttempts msgs)).2,
           cfg.retryAttempts + 1⟩ := by
  have h := genLoop_all_invalid cfg f hInv cfg.retryAttempts msgs 0
  rw [generateResponseWithConstraints, h, Nat.zero_add]

/-- C2 witness: a constant always-invalid client makes the default
configuration perform three calls and return the fallback of the last
reply with its metadata. -/
theorem generate_all_invalid_fallback_witness :
    generateResponseWithConstraints defaultConfig
      (okClient (fun _ => (("too short", 7) : String × Nat))) [] =
      .ok ⟨applyFallback defaultConfig "too short", 7, 3⟩ :=
  generate_all_invalid_fallback defaultConfig _ [] (fun _ => by decide)

theorem validate_true_no_forbidden (cfg : Config) (s : String)
    (h : (validateResponse cfg s).1 = true) : containsForbidden s = false := by
  by_cases h1 : stripPy s.data = []
  · simp [validateResponse, h1] at h
  · by_cases h2 : containsForbidden s
    · simp [validateResponse, h1, h2] at h
    · simpa using h2

theorem sanitize_of_valid (cfg : Config) (s : String)
    (h : (validateResponse cfg s).1 = true) :
    normalizeWhitespace (stripForbidden (normalizeWhitespace s)) = normalizeWhitespace s := by
  have hnf := validate_true_no_forbidden cfg s h
  have hnfall : ∀ c ∈ s.data, isForbidden c = false := by
    intro c hc
    by_contra hcc
    have hct : isForbidden c = true := by
      cases hcf : isForbidden c
      · exact absurd hcf hcc
      · rfl
    have : containsForbidden s = true := List.any_eq_true.mpr ⟨c, hc, hct⟩
    rw [this] at hnf
    exact absurd hnf (by decide)
  have hN : ∀ c ∈ (normalizeWhitespace s).data, isForbidden c = false := by
    intro c hc
    rcases mem_normalizeWhitespace s c hc with rfl | hcs
    · decide
    · exact hnfall c hcs
  rw [stripForbidden_eq_self _ hN, normalizeWhitespace_idem]

/-- C5: with a client whose first reply is valid, the retry orchestrator
makes exactly one client call and returns the reply changed only by
whitespace normalization (the defensive forbidden-character strip is the
identity on a validated reply), together with that call's metadata. -/
theorem generate_first_valid {μ : Type} (cfg : Config)
    (f : List ChatMessage → String × μ) (msgs : List ChatMessage)
    (h : (validateResponse cfg (f msgs).1).1 = true) :
    generateResponseWithConstraints cfg (okClient f) msgs =
      .ok ⟨normalizeWhitespace (f msgs).1, (f msgs).2, 1⟩ := by
  rw [generateResponseWithConstraints, genLoop_unfold]
  rcases hfm : f msgs with ⟨c, m⟩
  rw [hfm] at h
  simp only [okClient, hfm, h, if_true]
  rw [sanitize_of_valid cfg c h]

/-- C5 witness: a client replying validly at once returns the reply
unchanged after one call. -/
theorem generate_first_valid_witness :
    generateResponseWithConstraints defaultConfig
      (okClient (fun _ => (("I am very happy today", 42) : String × Nat))) [] =
      .ok ⟨"I am very happy today", 42, 1⟩ :=
  generate_first_valid defaultConfig _ [] (by decide)

theorem genTrace_head {μ : Type} (cfg : Config) (f : List ChatMessage → String × μ)
    (r : Nat) (msgs : List ChatMessage) :
    (genTrace cfg f r msgs).head? = some msgs := by
  rw [genTrace.eq_def]
  by_cases hval : (validateResponse cfg (f msgs).1).1
  · simp [hval]
  · cases r <;> simp [hval]

theorem genTrace_extends {μ : Type} (cfg : Config) (f : List ChatMessage → String × μ) :
    ∀ (r : Nat) (msgs : List ChatMessage),
      ∀ ms ∈ genTrace cfg f r msgs, ∃ ext, ms = msgs ++ ext := by
  intro r
  induction r with
  | zero =>
    intro msgs ms hms
    rw [genTrace.eq_def] at hms
    by_cases hval : (validateResponse cfg (f msgs).1).1 <;>
      simp [hval] at hms <;> exact ⟨[], by simp [hms]⟩
  | succ r ih =>
    intro msgs ms hms
    rw [genTrace.eq_def] at hms
    by_cases hval : (validateResponse cfg (f msgs).1).1
    · simp [hval] at hms
      exact ⟨[], by simp [hms]⟩
    · simp only [hval, Bool.false_eq_true, if_false] at hms
      rcases List.mem_cons.mp hms with rfl | hms'
      · exact ⟨[], by simp⟩
      · rcases ih _ ms hms' with ⟨ext, hext⟩
        exact ⟨retryTurns cfg (f msgs).1 ++ ext, by simp [hext]⟩

theorem genTrace_chain {μ : Type} (cfg : Config) (f : List ChatMessage → String × μ) :
    ∀ (r : Nat) (msgs : List ChatMessage),
      List.Chain' (fun a b => b = a ++ retryTurns cfg (f a).1) (genTrace cfg f r msgs) := by
  intro r
  induction r with
  | zero =>
    intro msgs
    rw [genTrace.eq_def]
    by_cases hval : (validateResponse cfg (f msgs).1).1 <;> simp [hval]
  | succ r ih =>
    intro msgs
    rw [genTrace.eq_def]
    by_cases hval : (validateResponse cfg (f msgs).1).1
    · simp [hval]
    · simp only [hval, Bool.false_eq_true, if_false]
      rw [List.chain'_cons']
      refine ⟨?_, ih _⟩
      intro y hy
      rw [genTrace_head] at hy
      simp only [Option.mem_def, Option.some.injEq] at hy
      rw [← hy]

theorem genLoop_calls_trace {μ : Type} (cfg : Config) (f : List ChatMessage → String × μ) :
    ∀ (r : Nat) (msgs : List ChatMessage) (calls : Nat) (res : GenResult μ),
      genLoop cfg (okClient f) r msgs calls = .ok res →
      res.calls = calls + (genTrace cfg f r msgs).length := by
  intro r
  induction r with
  | zero =>
    intro msgs calls res h
    rw [genLoop_unfold] at h
    rcases hfm : f msgs with ⟨c, m⟩
    rw [genTrace.eq_def]
    simp only [okClient, hfm] at h
    simp only [hfm]
    by_cases hval : (validateResponse cfg c).1
    · simp only [hval, if_true, Except.ok.injEq] at h
      simp [hval, ← h]
    · simp only [hval, Bool.false_eq_true, if_false, Except.ok.injEq] at h
      simp [hval, ← h]
  | succ r ih =>
    intro msgs calls res h
    rw [genLoop_unfold] at h
    rcases hfm : f msgs with ⟨c, m⟩
    rw [genTrace.eq_def]
    simp only [okClient, hfm] at h
    simp only [hfm]
    by_cases hval : (validateResponse cfg c).1
    · simp only [hval, if_true, Except.ok.injEq] at h
      simp [hval, ← h]
    · simp only [hval, Bool.false_eq_true, if_false] at h ⊢
      have hih := ih _ _ _ h
      simp only [retryTurns] at hih ⊢
      rw [List.length_cons, hih]
      omega

/-- C6: the retry orchestrator works on its own growing copy of the
conversation: the trace of conversations passed to the client starts with
the caller's list, every sent conversation extends the caller's list (the
caller's messages stay untouched as a prefix), each failed attempt with
attempts remaining appends exactly two turns — the assistant's normalized
failed reply and one synthesized user retry instruction — and the number
of client calls reported equals the trace's length. -/
theorem genTrace_frame {μ : Type} (cfg : Config) (f : List ChatMessage → String × μ)
    (r : Nat) (msgs0 : List ChatMessage) :
    (genTrace cfg f r msgs0).head? = some msgs0 ∧
    (∀ ms ∈ genTrace cfg f r msgs0, ∃ ext, ms = msgs0 ++ ext) ∧
    List.Chain' (fun a b => b = a ++
      [⟨"assistant", normalizeWhitespace (f a).1⟩,
       ⟨"user", buildRetryInstruction (validateResponse cfg (f a).1).2⟩])
      (genTrace cfg f r msgs0) ∧
    (∀ res : GenResult μ, genLoop cfg (okClient f) r msgs0 0 = .ok res →
      res.calls = (genTrace cfg f r msgs0).length) := by
  refine ⟨genTrace_head cfg f r msgs0, genTrace_extends cfg f r msgs0, ?_, ?_⟩
  · exact genTrace_chain cfg f r msgs0
  · intro res h
    have := genLoop_calls_trace cfg f r msgs0 0 res h
    simpa using this

/-- C6 witness: the frame property at a concrete always-invalid client and
conversation, with the call-count link discharged at the computed run (the
run makes three calls, matching the trace's length). -/
theorem genTrace_frame_witness :
    (genTrace defaultConfig (fun ms => ("nope", ms.length)) 2 [⟨"user", "hi"⟩]).head?
      = some [⟨"user", "hi"⟩] ∧
    ((GenResult.mk (applyFallback defaultConfig "nope")
        (convoN defaultConfig (fun ms => ("nope", ms.length)) 2 [⟨"user", "hi"⟩]).length
        3).calls
      = (genTrace defaultConfig (fun ms => ("nope", ms.length)) 2 [⟨"user", "hi"⟩]).length) :=
  ⟨(genTrace_frame defaultConfig _ 2 _).1,
   (genTrace_frame defaultConfig (fun ms => ("nope", ms.length)) 2 [⟨"user", "hi"⟩]).2.2.2
     _ (genLoop_all_invalid defaultConfig (fun ms => ("nope", ms.length))
        (fun _ => (by decide : (validateResponse defaultConfig "nope").1 = false))
        2 [⟨"user", "hi"⟩] 0)⟩

/-! ### The fallback generator (claims C1, C9) -/

theorem mem_fillLoop (cfg : Config) :
    ∀ (fuel : Nat) (ws : List (List Char)) (t : List Char),
      t ∈ fillLoop cfg fuel ws → t ∈ ws ∨ t ∈ fillerWords := by
  intro fuel
  induction fuel with
  | zero => intro ws t ht; exact Or.inl ht
  | succ fuel ih =>
    intro ws t ht
    rw [fillLoop] at ht
    by_cases hlen : ws.length < cfg.wordMin
    · simp only [hlen, if_true] at ht
      by_cases hge : cfg.wordMin ≤ (fillPass cfg ws).length
      · simp only [hge, if_true] at ht
        rcases List.mem_append.mp ht with h | h
        · exact Or.inl h
        · exact Or.inr ((List.take_sublist _ _).subset h)
      · simp only [hge, if_false] at ht
        rcases ih _ t ht with h | h
        · rcases List.mem_append.mp h with h' | h'
          · exact Or.inl h'
          · exact Or.inr ((List.take_sublist _ _).subset h')
        · exact Or.inr h
    · simp only [hlen, if_false] at ht
      exact Or.inl ht

theorem fillPass_length (cfg : Config) (ws : List (List Char)) :
    (fillPass cfg ws).length = ws.length + min (cfg.wordMax - ws.length) fillerWords.length := by
  simp [fillPass, List.length_take]

theorem fillLoop_length_le (cfg : Config) (_h2 : cfg.wordMin ≤ cfg.wordMax) :
    ∀ (fuel : Nat) (ws : List (List Char)), ws.length ≤ cfg.wordMax →
      (fillLoop cfg fuel ws).length ≤ cfg.wordMax := by
  intro fuel
  induction fuel with
  | zero => intro ws h; exact h
  | succ fuel ih =>
    intro ws h
    rw [fillLoop]
    by_cases hlen : ws.length < cfg.wordMin
    · have hpass : (fillPass cfg ws).length ≤ cfg.wordMax := by
        rw [fillPass_length]
        omega
      simp only [hlen, if_true]
      by_cases hge : cfg.wordMin ≤ (fillPass cfg ws).length
      · simp only [hge, if_true]; exact hpass
      · simp only [hge, if_false]; exact ih _ hpass
    · simp only [hlen, if_false]; exact h

theorem fillLoop_length_ge (cfg : Config) (h2 : cfg.wordMin ≤ cfg.wordMax) :
    ∀ (fuel : Nat) (ws : List (List Char)),
      cfg.wordMin ≤ ws.length + fuel →
      cfg.wordMin ≤ (fillLoop cfg fuel ws).length := by
  intro fuel
  induction fuel with
  | zero => intro ws h; simpa using h
  | succ fuel ih =>
    intro ws h
    rw [fillLoop]
    by_cases hlen : ws.length < cfg.wordMin
    · simp only [hlen, if_true]
      by_cases hge : cfg.wordMin ≤ (fillPass cfg ws).length
      · simp [hge]
      · simp only [hge, if_false]
        apply ih
        have hfl : fillerWords.length = 17 := rfl
        have := fillPass_length cfg ws
        omega
    · simp only [hlen, if_false]; omega

theorem fillLoop_noop (cfg : Config) (fuel : Nat) (ws : List (List Char))
    (h : ¬ ws.length < cfg.wordMin) : fillLoop cfg (fuel + 1) ws = ws := by
  rw [fillLoop]
  simp [h]

theorem seedWords_facts :
    ∀ t ∈ seedWords, goodToken t ∧ (∀ c ∈ t, isForbidden c = false) ∧
      (∀ c ∈ t, isAsciiLetter c = true) := by decide

theorem fillerWords_facts :
    ∀ t ∈ fillerWords, goodToken t ∧ (∀ c ∈ t, isForbidden c = false) ∧
      (∀ c ∈ t, isAsciiLetter c = true) := by decide

theorem fallbackWordsList_tokens (cfg : Config) (x : String) :
    ∀ t ∈ fallbackWordsList cfg x,
      goodToken t ∧ ∀ c ∈ t, isForbidden c = false := by
  intro t ht
  have hsan : ∀ c ∈ (normalizeWhitespace (stripForbidden x)).data, isForbidden c = false := by
    intro c hc
    rcases mem_normalizeWhitespace _ c hc with rfl | hcs
    · decide
    · have hcs' : c ∈ x.data.filter (fun d => !(isForbidden d)) := hcs
      simpa using List.of_mem_filter hcs'
  have hws0 : ∀ u ∈ splitWs (normalizeWhitespace (stripForbidden x)).data,
      goodToken u ∧ ∀ c ∈ u, isForbidden c = false := by
    intro u hu
    obtain ⟨hg, hmem⟩ := splitWs_tokens _ u hu
    exact ⟨hg, fun c hc => hsan c (hmem c hc)⟩
  rcases mem_fillLoop cfg _ _ t ht with hmem | hfill
  · -- t came from ws2, hence from ws1, hence from ws0 or the seed
    have hws1 : ∀ u ∈ (if splitWs (normalizeWhitespace (stripForbidden x)).data = []
        then seedWords else splitWs (normalizeWhitespace (stripForbidden x)).data),
        goodToken u ∧ ∀ c ∈ u, isForbidden c = false := by
      by_cases hnil : splitWs (normalizeWhitespace (stripForbidden x)).data = []
      · simp only [hnil, if_true]
        intro u hu
        obtain ⟨hg, hf, _⟩ := seedWords_facts u hu
        exact ⟨hg, hf⟩
      · simp only [hnil, if_false]
        exact hws0
    by_cases htr : (if splitWs (normalizeWhitespace (stripForbidden x)).data = []
        then seedWords else splitWs (normalizeWhitespace (stripForbidden x)).data).length
        > cfg.wordMax
    · simp only [fallbackWordsList, htr, if_true] at hmem
      exact hws1 _ ((List.take_sublist _ _).subset hmem)
    · simp only [fallbackWordsList, htr, if_false] at hmem
      exact hws1 _ hmem
  · obtain ⟨hg, hf, _⟩ := fillerWords_facts t hfill
    exact ⟨hg, hf⟩

theorem fallbackWordsList_length_le (cfg : Config) (h2 : cfg.wordMin ≤ cfg.wordMax)
    (x : String) : (fallbackWordsList cfg x).length ≤ cfg.wordMax := by
  unfold fallbackWordsList
  apply fillLoop_length_le cfg h2
  by_cases htr : (if splitWs (normalizeWhitespace (stripForbidden x)).data = []
      then seedWords else splitWs (normalizeWhitespace (stripForbidden x)).data).length
      > cfg.wordMax
  · simp only [htr, if_true, List.length_take]
    omega
  · simp only [htr, if_false]
    omega

theorem fallbackWordsList_length_ge (cfg : Config) (h2 : cfg.wordMin ≤ cfg.wordMax)
    (x : String) : cfg.wordMin ≤ (fallbackWordsList cfg x).length := by
  unfold fallbackWordsList
  apply fillLoop_length_ge cfg h2
  omega

theorem fallbackWordsList_letters (cfg : Config) (x : String)
    (hlet : ∀ t ∈ splitWs (normalizeWhitespace (stripForbidden x)).data,
      ∀ c ∈ t, isAsciiLetter c = true) :
    ∀ t ∈ fallbackWordsList cfg x, ∀ c ∈ t, isAsciiLetter c = true := by
  intro t ht
  rcases mem_fillLoop cfg _ _ t ht with hmem | hfill
  · have hws1 : ∀ u ∈ (if splitWs (normalizeWhitespace (stripForbidden x)).data = []
        then seedWords else splitWs (normalizeWhitespace (stripForbidden x)).data),
        ∀ c ∈ u, isAsciiLetter c = true := by
      by_cases hnil : splitWs (normalizeWhitespace (stripForbidden x)).data = []
      · simp only [hnil, if_true]
        exact fun u hu => (seedWords_facts u hu).2.2
      · simp only [hnil, if_false]
        exact hlet
    by_cases htr : (if splitWs (normalizeWhitespace (stripForbidden x)).data = []
        then seedWords else splitWs (normalizeWhitespace (stripForbidden x)).data).length
        > cfg.wordMax
    · simp only [fallbackWordsList, htr, if_true] at hmem
      exact hws1 _ ((List.take_sublist _ _).subset hmem)
    · simp only [fallbackWordsList, htr, if_false] at hmem
      exact hws1 _ hmem
  · exact (fillerWords_facts t hfill).2.2

theorem joinSpace_concat_last (ts : List (List Char)) :
    ∀ (last suf : List Char),
      joinSpace (ts ++ [last ++ suf]) = joinSpace (ts ++ [last]) ++ suf := by
  induction ts with
  | nil => intro last suf; simp [joinSpace]
  | cons t ts' ih =>
    intro last suf
    rw [List.cons_append, joinSpace_cons _ _ (by simp),
      List.cons_append, joinSpace_cons _ _ (by simp), ih]
    simp

/-- Characterization of `_apply_fallback`'s output for any terminating
configuration (`1 ≤ wordMin ≤ wordMax`): the output is a space-join of
non-empty whitespace-free forbidden-free tokens, between `wordMin` and
`wordMax` of them, ending with terminal punctuation; and when every
sanitized input token is purely ASCII letters, every output token carries
exactly one letter run. -/
theorem applyFallback_spec (cfg : Config) (h1 : 1 ≤ cfg.wordMin)
    (h2 : cfg.wordMin ≤ cfg.wordMax) (x : String) :
    ∃ ts : List (List Char),
      (applyFallback cfg x).data = joinSpace ts ∧
      (∀ t ∈ ts, goodToken t ∧ ∀ c ∈ t, isForbidden c = false) ∧
      cfg.wordMin ≤ ts.length ∧ ts.length ≤ cfg.wordMax ∧
      endsWithTerminal (joinSpace ts) = true ∧
      ((∀ t ∈ splitWs (normalizeWhitespace (stripForbidden x)).data,
          ∀ c ∈ t, isAsciiLetter c = true) →
        ∀ t ∈ ts, countWordsAux false t = 1) := by
  have hle := fallbackWordsList_length_le cfg h2 x
  have hge := fallbackWordsList_length_ge cfg h2 x
  have hgood := fallbackWordsList_tokens cfg x
  have htake : (fallbackWordsList cfg x).take cfg.wordMax = fallbackWordsList cfg x :=
    List.take_of_length_le hle
  have hdef : applyFallback cfg x =
      (if endsWithTerminal (joinSpace (fallbackWordsList cfg x))
        then (⟨joinSpace (fallbackWordsList cfg x)⟩ : String)
        else ⟨joinSpace (fallbackWordsList cfg x) ++ ['.']⟩) := by
    simp only [applyFallback, htake]
  by_cases hterm : endsWithTerminal (joinSpace (fallbackWordsList cfg x)) = true
  · refine ⟨fallbackWordsList cfg x, ?_, hgood, hge, hle, hterm, ?_⟩
    · rw [hdef, if_pos hterm]
    · intro hlet t ht
      exact countWordsAux_all_letters t (hgood t ht).1.1
        (fallbackWordsList_letters cfg x hlet t ht)
  · have hne : fallbackWordsList cfg x ≠ [] := by
      intro hnil
      rw [hnil] at hge
      simp at hge
      omega
    obtain ⟨init, last, heq⟩ : ∃ L b, fallbackWordsList cfg x = L ++ [b] := by
      rcases List.eq_nil_or_concat (fallbackWordsList cfg x) with h | ⟨L, b, hcb⟩
      · exact absurd h hne
      · exact ⟨L, b, by simpa [List.concat_eq_append] using hcb⟩
    have hlastmem : last ∈ fallbackWordsList cfg x := by rw [heq]; simp
    refine ⟨init ++ [last ++ ['.']], ?_, ?_, ?_, ?_, ?_, ?_⟩
    · rw [hdef, if_neg hterm]
      show joinSpace (fallbackWordsList cfg x) ++ ['.'] = _
      rw [joinSpace_concat_last, ← heq]
    · intro t ht
      rcases List.mem_append.mp ht with hti | htl
      · exact hgood t (by rw [heq]; exact List.mem_append_left _ hti)
      · have htv : t = last ++ ['.'] := by simpa using htl
        subst htv
        obtain ⟨⟨hlne, hlws⟩, hlforb⟩ := hgood last hlastmem
        refine ⟨⟨by simp, ?_⟩, ?_⟩
        · intro c hc
          rcases List.mem_append.mp hc with h | h
          · exact hlws c h
          · have : c = '.' := by simpa using h
            subst this; decide
        · intro c hc
          rcases List.mem_append.mp hc with h | h
          · exact hlforb c h
          · have : c = '.' := by simpa using h
            subst this; decide
    · rw [heq] at hge; simpa using hge
    · rw [heq] at hle; simpa using hle
    · rw [joinSpace_concat_last, ← heq]
      unfold endsWithTerminal
      rw [List.getLast?_concat]
      decide
    · intro hlet t ht
      have hletters := fallbackWordsList_letters cfg x hlet
      rcases List.mem_append.mp ht with hti | htl
      · have htm : t ∈ fallbackWordsList cfg x := by
          rw [heq]; exact List.mem_append_left _ hti
        exact countWordsAux_all_letters t (hgood t htm).1.1 (hletters t htm)
      · have htv : t = last ++ ['.'] := by simpa using htl
        subst htv
        rw [countWordsAux_append_nonletter last '.' (by decide)]
        exact countWordsAux_all_letters last (hgood last hlastmem).1.1
          (hletters last hlastmem)

/-- C1 counterexample: the fallback output for the input of five digit
tokens has zero letter-run words, so `_validate_response` rejects it with
the "too few words" reason — the fallback guarantee fails as stated. -/
theorem applyFallback_digits_fails_validation :
    validateResponse defaultConfig (applyFallback defaultConfig "1 2 3 4 5")
      = (false, tooFewReason 0) := by decide

/-- C1 amended: for a terminating configuration (`1 ≤ wordMin ≤ wordMax`)
and any input whose sanitized whitespace-separated tokens consist solely of
ASCII letters (in particular the empty string, whitespace-only inputs, and
over-long all-letter inputs), the fallback output passes the validator. -/
theorem applyFallback_passes_validation (cfg : Config) (x : String)
    (h1 : 1 ≤ cfg.wordMin) (h2 : cfg.wordMin ≤ cfg.wordMax)
    (hlet : ∀ t ∈ splitWs (normalizeWhitespace (stripForbidden x)).data,
      ∀ c ∈ t, isAsciiLetter c = true) :
    validateResponse cfg (applyFallback cfg x) = (true, "") := by
  obtain ⟨ts, hdata, hgood, hmin, hmax, hterm, hcount⟩ := applyFallback_spec cfg h1 h2 x
  have hts1 : ∀ t ∈ ts, goodToken t := fun t ht => (hgood t ht).1
  have hcnt := hcount hlet
  have htsne : ts ≠ [] := by
    intro h
    rw [h] at hmin
    simp at hmin
    omega
  have hstrip : stripPy (applyFallback cfg x).data ≠ [] := by
    intro hnil
    have hsw := splitWs_stripPy (applyFallback cfg x).data
    rw [hnil, hdata, splitWs_joinSpace ts hts1] at hsw
    exact htsne hsw.symm
  have hforb : containsForbidden (applyFallback cfg x) = false := by
    by_cases hcf : containsForbidden (applyFallback cfg x) = true
    · exfalso
      obtain ⟨c, hc, hctrue⟩ := List.any_eq_true.mp hcf
      rw [hdata] at hc
      rcases mem_joinSpace ts c hc with rfl | ⟨t, ht, hct⟩
      · exact absurd hctrue (by decide)
      · rw [(hgood t ht).2 c hct] at hctrue
        exact absurd hctrue (by decide)
    · simpa using hcf
  have hwc : countWords (normalizeWhitespace (applyFallback cfg x)) = ts.length := by
    unfold countWords
    rw [normalizeWhitespace_data, hdata, splitWs_joinSpace ts hts1]
    exact countWordsAux_joinSpace ts hcnt
  have hnotlt : ¬ countWords (normalizeWhitespace (applyFallback cfg x)) < cfg.wordMin := by
    rw [hwc]; omega
  have hnotgt : ¬ countWords (normalizeWhitespace (applyFallback cfg x)) > cfg.wordMax := by
    rw [hwc]; omega
  simp [validateResponse, hstrip, hforb, hnotlt, hnotgt]

/-- C1 witness: with the default configuration the fallback of the empty
string passes the validator, through `applyFallback_passes_validation`. -/
theorem applyFallback_passes_validation_witness :
    validateResponse defaultConfig (applyFallback defaultConfig "") = (true, "") :=
  applyFallback_passes_validation defaultConfig "" (by decide) (by decide) (by decide)

theorem applyFallback_fixed (cfg : Config) (y : String) (ts : List (List Char))
    (hdata : y.data = joinSpace ts)
    (hgood : ∀ t ∈ ts, goodToken t ∧ ∀ c ∈ t, isForbidden c = false)
    (hmin : cfg.wordMin ≤ ts.length) (hmax : ts.length ≤ cfg.wordMax)
    (hterm : endsWithTerminal (joinSpace ts) = true) :
    applyFallback cfg y = y := by
  have hts1 : ∀ t ∈ ts, goodToken t := fun t ht => (hgood t ht).1
  have htsne : ts ≠ [] := by
    intro h
    rw [h] at hterm
    simp [joinSpace, endsWithTerminal] at hterm
  have hyforb : ∀ c ∈ y.data, isForbidden c = false := by
    intro c hc
    rw [hdata] at hc
    rcases mem_joinSpace ts c hc with rfl | ⟨t, ht, hct⟩
    · decide
    · exact (hgood t ht).2 c hct
  have hstr : stripForbidden y = y := stripForbidden_eq_self y hyforb
  have hnormdata : (normalizeWhitespace y).data = y.data := by
    rw [normalizeWhitespace_data, hdata, splitWs_joinSpace ts hts1]
  have hnorm : normalizeWhitespace y = y := by
    cases hny : normalizeWhitespace y
    cases hyy : y
    rw [hny, hyy] at hnormdata
    exact congrArg String.mk hnormdata
  have hsplit : splitWs y.data = ts := by
    rw [hdata]
    exact splitWs_joinSpace ts hts1
  have hfwl : fallbackWordsList cfg y = ts := by
    unfold fallbackWordsList
    rw [hstr, hnorm, hsplit]
    simp only [htsne, if_false]
    have hnotgt : ¬ ts.length > cfg.wordMax := by omega
    simp only [hnotgt, if_false]
    exact fillLoop_noop cfg cfg.wordMin ts (by omega)
  have htermy : endsWithTerminal y.data = true := by rw [hdata]; exact hterm
  show (if endsWithTerminal (joinSpace ((fallbackWordsList cfg y).take cfg.wordMax))
      then (⟨joinSpace ((fallbackWordsList cfg y).take cfg.wordMax)⟩ : String)
      else ⟨joinSpace ((fallbackWordsList cfg y).take cfg.wordMax) ++ ['.']⟩) = y
  rw [hfwl, List.take_of_length_le hmax, ← hdata, if_pos htermy]

/-- C9 counterexample: for the five-digit-token input, `fallback(fallback(x))`
does not pass the validator, refuting the "still passes validation" part of
the idempotence claim. -/
theorem applyFallback_twice_not_validated :
    (validateResponse defaultConfig
      (applyFallback defaultConfig (applyFallback defaultConfig "1 2 3 4 5"))).1
      = false := by decide

/-- C9 amended: for a terminating configuration (`1 ≤ wordMin ≤ wordMax`),
re-running the fallback on its own output returns the output exactly
(`fallback(fallback(x)) = fallback(x)`), hence the same word-count bucket;
it passes the validator precisely when `fallback(x)` does, which is not
always the case. -/
theorem applyFallback_idem (cfg : Config) (x : String)
    (h1 : 1 ≤ cfg.wordMin) (h2 : cfg.wordMin ≤ cfg.wordMax) :
    applyFallback cfg (applyFallback cfg x) = applyFallback cfg x := by
  obtain ⟨ts, hdata, hgood, hmin, hmax, hterm, _⟩ := applyFallback_spec cfg h1 h2 x
  exact applyFallback_fixed cfg _ ts hdata hgood hmin hmax hterm

/-- C9 witness: idempotence at a concrete input under the default
configuration, through `applyFallback_idem`. -/
theorem applyFallback_idem_witness :
    applyFallback defaultConfig (applyFallback defaultConfig "Hello there")
      = applyFallback defaultConfig "Hello there" :=
  applyFallback_idem defaultConfig "Hello there" (by decide) (by decide)

/-! ### The dictionary and grammar normalizers (claim C7) -/

/-- The decoded object's `headword` field can be `.strip()`-ed without a
`TypeError`/`AttributeError`: it is either falsy (so the fallback word is
used) or a string. -/
def headwordStrippable (es : List (String × PyValue)) : Prop :=
  (dictGet es "headword").truthy = false ∨ ∃ s, dictGet es "headword" = .pyStr s

/-- The decoded object's `part_of_speech` field survives the pydantic v2
validation of the `str | None` response field under the source's
assignment: whenever it is a non-empty list, its first element is `None`
or a string. -/
def partOfSpeechValidatable (es : List (String × PyValue)) : Prop :=
  ∀ v vs, dictGet es "part_of_speech" = .pyList (v :: vs) →
    v = .pyNone ∨ ∃ s, v = .pyStr s

theorem partOfSpeechField_ok (es : List (String × PyValue))
    (h : partOfSpeechValidatable es) : ∃ p, partOfSpeechField es = .ok p := by
  unfold partOfSpeechField
  cases hpos : dictGet es "part_of_speech" with
  | pyList xs =>
    cases xs with
    | nil => exact ⟨none, rfl⟩
    | cons v vs =>
      rcases h v vs hpos with rfl | ⟨s, rfl⟩
      · exact ⟨none, rfl⟩
      · exact ⟨some s, rfl⟩
  | pyStr s2 => exact ⟨_, rfl⟩
  | pyNone => exact ⟨none, rfl⟩
  | pyBool b => exact ⟨none, rfl⟩
  | pyInt n => exact ⟨none, rfl⟩
  | pyDict d => exact ⟨none, rfl⟩

/-- C7 counterexample: on the input `{"headword": 5}` (with a decoder that
agrees with `json.loads` on it) the dictionary normalizer calls `.strip()`
on the integer 5 and raises instead of returning a structured result. -/
theorem dictionary_nonstring_headword_raises :
    decodeHeadwordFive "\x7b\"headword\": 5\x7d"
      = some (.pyDict [("headword", .pyInt 5)]) ∧
    normalizeDictionaryResult decodeHeadwordFive "\x7b\"headword\": 5\x7d" "apple"
      = .error "AttributeError: strip called on a non-string headword" :=
  ⟨rfl, rfl⟩

example :
    normalizeDictionaryResult
      (fun _ => some (.pyDict
        [("headword", .pyStr "run"), ("part_of_speech", .pyList [.pyInt 5])]))
      "irrelevant" "apple"
      = .error "ValidationError: part_of_speech is neither a string nor None" := by rfl

/-- C7 amended: decode failures degrade to a structured result carrying the
processed stripped text in both normalizers, and the grammar normalizer's
coercions are total; the dictionary normalizer returns a structured result
provided the decoded object's `headword` field is absent, falsy, or a
string (otherwise `.strip()` raises `AttributeError`) and its
`part_of_speech` field, when a non-empty list, has a first element that is
a string or `None` (otherwise the pydantic v2 `DictionaryResponse`
construction raises `ValidationError`). -/
theorem normalizers_degrade :
    (∀ (decode : String → Option PyValue) (payload w : String),
      stripPy payload.data ≠ [] →
      decode ⟨mungePayload true (stripPy payload.data)⟩ = none →
      normalizeDictionaryResult decode payload w
        = .ok ⟨w, none, ⟨mungePayload true (stripPy payload.data)⟩, []⟩) ∧
    (∀ (decode : String → Option PyValue) (raw : String),
      stripPy raw.data ≠ [] →
      decode ⟨mungePayload false (stripPy raw.data)⟩ = none →
      normalizeGrammarResult decode raw
        = (false, ⟨mungePayload false (stripPy raw.data)⟩, none)) ∧
    (∀ (decode : String → Option PyValue) (payload w : String),
      (∀ es, decode ⟨mungePayload true (stripPy payload.data)⟩ = some (.pyDict es) →
        headwordStrippable es ∧ partOfSpeechValidatable es) →
      (normalizeDictionaryResult decode payload w).isOk = true) := by
  refine ⟨?_, ?_, ?_⟩
  · intro decode payload w hne hdec
    have hempty : (stripPy payload.data).isEmpty = false := by
      simpa [List.isEmpty_iff] using hne
    simp [normalizeDictionaryResult, hempty, hdec]
  · intro decode raw hne hdec
    have hempty : (stripPy raw.data).isEmpty = false := by
      simpa [List.isEmpty_iff] using hne
    simp [normalizeGrammarResult, hempty, hdec]
  · intro decode payload w hcond
    by_cases hempty : (stripPy payload.data).isEmpty
    · simp [normalizeDictionaryResult, hempty, Except.isOk, Except.toBool]
    · cases hdec : decode ⟨mungePayload true (stripPy payload.data)⟩ with
      | none => simp [normalizeDictionaryResult, hempty, hdec, Except.isOk, Except.toBool]
      | some v =>
        cases v with
        | pyDict es =>
          obtain ⟨hw, hposv⟩ := hcond es hdec
          obtain ⟨p, hp⟩ := partOfSpeechField_ok es hposv
          rcases hw with hfalsy | ⟨s, hs⟩
          · simp [normalizeDictionaryResult, hempty, hdec, hfalsy, hp,
              Except.isOk, Except.toBool]
          · by_cases htr : (PyValue.pyStr s).truthy = true
            · simp [normalizeDictionaryResult, hempty, hdec, hs, htr, hp,
                Except.isOk, Except.toBool]
            · simp [normalizeDictionaryResult, hempty, hdec, hs, if_neg htr, hp,
                Except.isOk, Except.toBool]
        | pyNone => simp [normalizeDictionaryResult, hempty, hdec, Except.isOk, Except.toBool]
        | pyBool b => simp [normalizeDictionaryResult, hempty, hdec, Except.isOk, Except.toBool]
        | pyInt n => simp [normalizeDictionaryResult, hempty, hdec, Except.isOk, Except.toBool]
        | pyStr s => simp [normalizeDictionaryResult, hempty, hdec, Except.isOk, Except.toBool]
        | pyList xs => simp [normalizeDictionaryResult, hempty, hdec, Except.isOk, Except.toBool]

/-- C7 witness: the degradation clauses at concrete inputs, through
`normalizers_degrade`. -/
theorem normalizers_degrade_witness :
    normalizeDictionaryResult (fun _ => none) "not json at all" "apple"
      = .ok ⟨"apple", none, "not json at all", []⟩ ∧
    normalizeGrammarResult (fun _ => none) "plain feedback"
      = (false, "plain feedback", none) ∧
    (normalizeDictionaryResult
      (fun _ => some (.pyDict [("headword", .pyStr "run")]))
      "\x7b\"headword\": \"run\"\x7d" "apple").isOk = true :=
  ⟨normalizers_degrade.1 (fun _ => none) "not json at all" "apple" (by decide) rfl,
   normalizers_degrade.2.1 (fun _ => none) "plain feedback" (by decide) rfl,
   normalizers_degrade.2.2 (fun _ => some (.pyDict [("headword", .pyStr "run")]))
     "\x7b\"headword\": \"run\"\x7d" "apple"
     (fun es hes => by
       cases hes
       exact ⟨Or.inr ⟨"run", rfl⟩, fun v vs h => PyValue.noConfusion h⟩)⟩

end VocalCoach
